import Mathlib

/-!
Verification of the Sankey layout-and-flow-path engine (`sankey-hand-layout`).

The definitions below are a shallow embedding of the TypeScript source:
`src/core/types.ts`, `src/core/Graph.ts`, `src/core/Layout.ts`,
`src/render/PathGenerator.ts`, `src/interaction/ResizeHandler.ts` and the
`Animator`.  Machine floats are modelled as exact rationals (`ℚ`); JavaScript
`Map`/`Record` objects are modelled as association lists with the same
insertion/overwrite semantics; `throw` is modelled with `Except String`.
-/

namespace Sankey

/-- Node orientation, the `0 | 90 | 180 | 270` degree enum of `types.ts`. -/
inductive Orientation where
  | deg0
  | deg90
  | deg180
  | deg270
deriving DecidableEq, Repr

/-- Logical attachment side of a node, the `'in' | 'out'` union of the source. -/
inductive Side where
  | inSide
  | outSide
deriving DecidableEq, Repr

/-- Physical edge of a node bounding box (`'left' | 'right' | 'top' | 'bottom'`). -/
inductive Edge where
  | left
  | right
  | top
  | bottom
deriving DecidableEq, Repr

/-- The `Node` interface of `types.ts` (the `categories` and `shape` fields are
opaque to every function the claims touch and are omitted). -/
structure Node where
  id : String
  label : Option String
  x : ℚ
  y : ℚ
  orientation : Orientation
  length : Option ℚ
deriving DecidableEq, Repr

/-- The `Link` interface of `types.ts` (with the 0.2.0 order-key fields). -/
structure Link where
  id : String
  source : String
  target : String
  value : ℚ
  sourceOrder : Option ℚ
  targetOrder : Option ℚ
deriving DecidableEq, Repr

/-- The `Graph` interface of `types.ts`. -/
structure Graph where
  nodes : List Node
  links : List Link
deriving DecidableEq, Repr

/-- The `PathStyle` union of `types.ts`. -/
inductive PathStyle where
  | bezier
  | constantWidth
deriving DecidableEq, Repr

/-- The numeric fields of `SankeyOptions` from `types.ts`.  The
`transitionEasing` function-valued field is modelled separately where it is
used (the animation claims quantify over the easing input, not the easing). -/
structure SankeyOptions where
  linkThickness : ℚ
  linkCurvature : ℚ
  nodeLength : ℚ
  valueScale : ℚ
  pathStyle : PathStyle
  minNodeThickness : ℚ
  minNodeLength : ℚ
  minControlPointDistance : ℚ
  transitionDuration : ℚ
deriving DecidableEq, Repr

/-- The numeric content of `DEFAULT_OPTIONS` from `types.ts`. -/
def defaultOptions : SankeyOptions where
  linkThickness := 1
  linkCurvature := 1/2
  nodeLength := 20
  valueScale := 1
  pathStyle := .constantWidth
  minNodeThickness := 4
  minNodeLength := 10
  minControlPointDistance := 20
  transitionDuration := 300

/-- `ComputedNode` from `types.ts`: a node plus derived flow totals. -/
structure ComputedNode extends Node where
  thickness : ℚ
  incomingValue : ℚ
  outgoingValue : ℚ
deriving DecidableEq, Repr

/-- The body of the `reduce((sum, link) => sum + link.value, 0)` calls in
`Graph.ts`. -/
def sumValues (links : List Link) : ℚ :=
  links.foldl (fun sum link => sum + link.value) 0

/-- `computeNodes` from `src/core/Graph.ts`: per-node flow totals and
thickness.  Note the source applies no `minNodeThickness` floor here; the
floor `Math.max(node.thickness, options.minNodeThickness)` appears only at
the consumers (attachment geometry, renderer, animator). -/
def computeNodes (graph : Graph) (options : SankeyOptions) : List ComputedNode :=
  graph.nodes.map fun node =>
    let incoming := graph.links.filter fun l => l.target == node.id
    let outgoing := graph.links.filter fun l => l.source == node.id
    let incomingValue := sumValues incoming
    let outgoingValue := sumValues outgoing
    let maxValue := max incomingValue outgoingValue
    let thickness := maxValue * options.valueScale
    { toNode := node
      thickness := thickness
      incomingValue := incomingValue
      outgoingValue := outgoingValue }

/-- The duplicate-id scan of `createGraph` (`Graph.ts` lines 8–14): walks the
node list keeping the set of seen ids, failing on the first repeat. -/
def checkNodeIds : List Node → List String → Except String (List String)
  | [], seen => .ok seen
  | node :: rest, seen =>
    if node.id ∈ seen then .error ("Duplicate node ID: " ++ node.id)
    else checkNodeIds rest (node.id :: seen)

/-- The dangling-reference scan of `createGraph` (`Graph.ts` lines 17–24). -/
def checkLinks (nodeIds : List String) : List Link → Except String Unit
  | [] => .ok ()
  | link :: rest =>
    if link.source ∈ nodeIds then
      if link.target ∈ nodeIds then checkLinks nodeIds rest
      else .error ("Link \"" ++ link.id ++ "\" references unknown target node: " ++ link.target)
    else .error ("Link \"" ++ link.id ++ "\" references unknown source node: " ++ link.source)

/-- `createGraph` from `src/core/Graph.ts`: validates and returns the graph
(`{ nodes: [...nodes], links: [...links] }` copies the arrays unchanged). -/
def createGraph (nodes : List Node) (links : List Link) : Except String Graph :=
  match checkNodeIds nodes [] with
  | .error e => .error e
  | .ok ids =>
    match checkLinks ids links with
    | .error e => .error e
    | .ok _ => .ok { nodes := nodes, links := links }

/-- Helper characterising the accumulator of a successful id scan. -/
theorem checkNodeIds_ok_eq (nodes : List Node) :
    ∀ (seen ids : List String), checkNodeIds nodes seen = .ok ids →
      ids = (nodes.map Node.id).reverse ++ seen := by
  induction nodes with
  | nil => intro seen ids h; simpa [checkNodeIds] using h.symm
  | cons n rest ih =>
    intro seen ids h
    by_cases hmem : n.id ∈ seen
    · simp [checkNodeIds, hmem] at h
    · simp only [checkNodeIds, hmem, if_neg, ite_false] at h
      have := ih (n.id :: seen) ids h
      simpa [List.append_assoc] using this

/-- The id scan succeeds exactly when the ids (together with the already-seen
ones) are pairwise distinct. -/
theorem checkNodeIds_ok_iff (nodes : List Node) :
    ∀ (seen : List String), (∃ ids, checkNodeIds nodes seen = .ok ids) ↔
      ((nodes.map Node.id).Nodup ∧ ∀ n ∈ nodes, n.id ∉ seen) := by
  induction nodes with
  | nil => intro seen; simp [checkNodeIds]
  | cons n rest ih =>
    intro seen
    by_cases hmem : n.id ∈ seen
    · simp only [checkNodeIds, hmem, ite_true]
      constructor
      · rintro ⟨ids, h⟩; cases h
      · rintro ⟨-, hall⟩
        exact absurd hmem (hall n (List.mem_cons_self n rest))
    · simp only [checkNodeIds, hmem, ite_false]
      rw [ih (n.id :: seen)]
      constructor
      · rintro ⟨hnodup, hall⟩
        refine ⟨?_, ?_⟩
        · simp only [List.map_cons, List.nodup_cons]
          refine ⟨?_, hnodup⟩
          intro hid
          obtain ⟨m, hm, hmid⟩ := List.exists_of_mem_map hid
          exact (hall m hm) (by simp [hmid])
        · intro m hm
          rcases List.mem_cons.mp hm with h | h
          · subst h; exact hmem
          · have := hall m h
            intro hc; exact this (List.mem_cons_of_mem _ hc)
      · rintro ⟨hnodup, hall⟩
        simp only [List.map_cons, List.nodup_cons] at hnodup
        refine ⟨hnodup.2, ?_⟩
        intro m hm hc
        rcases List.mem_cons.mp hc with h | h
        · exact hnodup.1 (h ▸ List.mem_map_of_mem Node.id hm)
        · exact hall m (List.mem_cons_of_mem _ hm) h

/-- The link scan succeeds exactly when every link resolves. -/
theorem checkLinks_ok_iff (ids : List String) (links : List Link) :
    checkLinks ids links = .ok () ↔ ∀ l ∈ links, l.source ∈ ids ∧ l.target ∈ ids := by
  induction links with
  | nil => simp [checkLinks]
  | cons l rest ih =>
    by_cases hs : l.source ∈ ids
    · by_cases ht : l.target ∈ ids
      · simp [checkLinks, hs, ht, ih]
      · simp [checkLinks, hs, ht]
    · simp [checkLinks, hs]

/-- C6: `createGraph(nodes, links)` fails exactly when two nodes share an id or
some link's source or target names an id not present among the nodes; on
success it returns the given nodes and links unmodified, never a repaired
variant. -/
theorem createGraph_spec (nodes : List Node) (links : List Link) :
    (createGraph nodes links = .ok { nodes := nodes, links := links } ↔
      ((nodes.map Node.id).Nodup ∧
        ∀ l ∈ links, l.source ∈ nodes.map Node.id ∧ l.target ∈ nodes.map Node.id)) ∧
    (∀ g, createGraph nodes links = .ok g → g = { nodes := nodes, links := links }) := by
  constructor
  · constructor
    · intro h
      unfold createGraph at h
      rcases hids : checkNodeIds nodes [] with e | ids
      · rw [hids] at h; cases h
      · rw [hids] at h
        dsimp only at h
        have hnodup : (nodes.map Node.id).Nodup := by
          have := (checkNodeIds_ok_iff nodes []).mp ⟨ids, hids⟩
          exact this.1
        refine ⟨hnodup, ?_⟩
        rcases hlk : checkLinks ids links with e | u
        · rw [hlk] at h; dsimp only at h; cases h
        · have hresolve := (checkLinks_ok_iff ids links).mp (by cases u; exact hlk)
          have hids_eq : ids = (nodes.map Node.id).reverse ++ [] :=
            checkNodeIds_ok_eq nodes [] ids hids
          intro l hl
          have := hresolve l hl
          simpa [hids_eq] using this
    · rintro ⟨hnodup, hresolve⟩
      obtain ⟨ids, hids⟩ := (checkNodeIds_ok_iff nodes []).mpr ⟨hnodup, by simp⟩
      have hids_eq : ids = (nodes.map Node.id).reverse ++ [] :=
        checkNodeIds_ok_eq nodes [] ids hids
      have hlk : checkLinks ids links = .ok () := by
        rw [checkLinks_ok_iff]
        intro l hl
        have := hresolve l hl
        simpa [hids_eq] using this
      unfold createGraph
      rw [hids]
      dsimp only
      rw [hlk]
  · intro g h
    unfold createGraph at h
    rcases hids : checkNodeIds nodes [] with e | ids
    · rw [hids] at h; cases h
    · rw [hids] at h
      dsimp only at h
      rcases hlk : checkLinks ids links with e | u
      · rw [hlk] at h; dsimp only at h; cases h
      · rw [hlk] at h
        dsimp only at h
        cases h; rfl

/-- A two-node, one-link graph used for concrete witnesses. -/
def nodeA : Node :=
  { id := "a", label := none, x := 0, y := 0, orientation := .deg0, length := none }

/-- Second demo node. -/
def nodeB : Node :=
  { id := "b", label := none, x := 100, y := 0, orientation := .deg0, length := none }

/-- Demo link from `a` to `b` of value 10. -/
def linkAB : Link :=
  { id := "ab", source := "a", target := "b", value := 10,
    sourceOrder := none, targetOrder := none }

/-- Witness for C6: the demo graph is valid and is returned unmodified. -/
theorem createGraph_spec_witness :
    createGraph [nodeA, nodeB] [linkAB] = .ok { nodes := [nodeA, nodeB], links := [linkAB] } :=
  (createGraph_spec [nodeA, nodeB] [linkAB]).1.mpr (by decide)

/-- Folding link-value addition equals adding the mapped sum. -/
theorem sumValues_eq_sum (links : List Link) :
    sumValues links = (links.map Link.value).sum := by
  suffices h : ∀ (a : ℚ), links.foldl (fun sum link => sum + link.value) a
      = a + (links.map Link.value).sum by
    simpa [sumValues] using h 0
  induction links with
  | nil => intro a; simp
  | cons l rest ih =>
    intro a
    simp only [List.foldl_cons, List.map_cons, List.sum_cons]
    rw [ih (a + l.value)]
    ring

/-- C1 (amended): `computeNodes` returns, positionally for each node, the sum
of values of links targeting it as `incomingValue`, the sum of values of links
sourced at it as `outgoingValue`, and `thickness = max(incoming, outgoing) ×
valueScale` with no `minNodeThickness` floor — a node with zero total flow
computes `thickness = 0`, not `minNodeThickness`. -/
theorem computeNodes_spec (graph : Graph) (options : SankeyOptions)
    (i : ℕ) (hi : i < graph.nodes.length) :
    (computeNodes graph options).length = graph.nodes.length ∧
    ∀ (hc : i < (computeNodes graph options).length),
      let node := graph.nodes.get ⟨i, hi⟩
      let cn := (computeNodes graph options).get ⟨i, hc⟩
      cn.toNode = node ∧
      cn.incomingValue = ((graph.links.filter fun l => l.target == node.id).map Link.value).sum ∧
      cn.outgoingValue = ((graph.links.filter fun l => l.source == node.id).map Link.value).sum ∧
      cn.thickness = max cn.incomingValue cn.outgoingValue * options.valueScale ∧
      (cn.incomingValue = 0 → cn.outgoingValue = 0 → cn.thickness = 0) := by
  refine ⟨by simp [computeNodes], ?_⟩
  intro hc
  have hget : (computeNodes graph options).get ⟨i, hc⟩ =
      (fun node =>
        let incoming := graph.links.filter fun l => l.target == node.id
        let outgoing := graph.links.filter fun l => l.source == node.id
        let incomingValue := sumValues incoming
        let outgoingValue := sumValues outgoing
        { toNode := node
          thickness := max incomingValue outgoingValue * options.valueScale
          incomingValue := incomingValue
          outgoingValue := outgoingValue }) (graph.nodes.get ⟨i, hi⟩) := by
    simp [computeNodes]
  refine ⟨?_, ?_, ?_, ?_, ?_⟩
  · rw [hget]
  · rw [hget]; exact sumValues_eq_sum _
  · rw [hget]; exact sumValues_eq_sum _
  · rw [hget]
  · intro hin hout
    rw [hget] at hin hout ⊢
    simp only at hin hout ⊢
    rw [hin, hout]
    simp

/-- A graph with one isolated node and no links at all. -/
def zeroFlowGraph : Graph := { nodes := [nodeA], links := [] }

/-- Witness for C1 (amended): applied to the demo graph at index 0. -/
theorem computeNodes_spec_witness :
    (computeNodes { nodes := [nodeA, nodeB], links := [linkAB] } defaultOptions).length = 2 ∧
    ∀ (hc : 0 < (computeNodes { nodes := [nodeA, nodeB], links := [linkAB] } defaultOptions).length),
      let node := ([nodeA, nodeB].get ⟨0, by decide⟩)
      let cn := (computeNodes { nodes := [nodeA, nodeB], links := [linkAB] } defaultOptions).get ⟨0, hc⟩
      cn.toNode = node ∧
      cn.incomingValue = (([linkAB].filter fun l => l.target == node.id).map Link.value).sum ∧
      cn.outgoingValue = (([linkAB].filter fun l => l.source == node.id).map Link.value).sum ∧
      cn.thickness = max cn.incomingValue cn.outgoingValue * defaultOptions.valueScale ∧
      (cn.incomingValue = 0 → cn.outgoingValue = 0 → cn.thickness = 0) :=
  computeNodes_spec { nodes := [nodeA, nodeB], links := [linkAB] } defaultOptions 0 (by decide)

/-- Counterexample for C1 as stated: with the default options
(`minNodeThickness = 4`) a node with zero total flow computes thickness `0`,
not `minNodeThickness` — `computeNodes` applies no floor. -/
theorem computeNodes_no_floor_counterexample :
    (computeNodes zeroFlowGraph defaultOptions).map ComputedNode.thickness = [0] ∧
    defaultOptions.minNodeThickness = 4 := by
  refine ⟨?_, rfl⟩
  norm_num [computeNodes, zeroFlowGraph, nodeA, defaultOptions, sumValues, List.filter]

/-- The `AttachmentPoint` record of `PathGenerator.ts`: boundary point,
outward direction and the link thickness carried along. -/
structure AttachmentPoint where
  x : ℚ
  y : ℚ
  dx : ℚ
  dy : ℚ
  thickness : ℚ
deriving DecidableEq, Repr

/-- Whether an orientation lays the node out horizontally
(`node.orientation === 0 || node.orientation === 180`). -/
def Orientation.isHorizontal : Orientation → Bool
  | .deg0 => true
  | .deg180 => true
  | _ => false

/-- `getAttachmentPoint` from `src/render/PathGenerator.ts` (lines 22–85):
exit/entry point for a node based on its orientation. -/
def getAttachmentPoint (node : ComputedNode) (side : Side) (offset : ℚ)
    (linkThickness : ℚ) (options : SankeyOptions) : AttachmentPoint :=
  let length := node.length.getD options.nodeLength
  let nodeThickness := max node.thickness options.minNodeThickness
  let width := if node.orientation.isHorizontal then length else nodeThickness
  let height := if node.orientation.isHorizontal then nodeThickness else length
  let edgeSide : Edge :=
    match node.orientation, side with
    | .deg0, .inSide => .left
    | .deg0, .outSide => .right
    | .deg90, .inSide => .top
    | .deg90, .outSide => .bottom
    | .deg180, .inSide => .right
    | .deg180, .outSide => .left
    | .deg270, .inSide => .bottom
    | .deg270, .outSide => .top
  let left := node.x - width / 2
  let right := node.x + width / 2
  let top := node.y - height / 2
  let bottom := node.y + height / 2
  match edgeSide with
  | .left => { x := left, y := top + height * offset, dx := -1, dy := 0, thickness := linkThickness }
  | .right => { x := right, y := top + height * offset, dx := 1, dy := 0, thickness := linkThickness }
  | .top => { x := left + width * offset, y := top, dx := 0, dy := -1, thickness := linkThickness }
  | .bottom => { x := left + width * offset, y := bottom, dx := 0, dy := 1, thickness := linkThickness }

/-- Modelled from the spec (§4.2): the fixed orientation/side → physical edge
table (0°: in=left/out=right; 90°: in=top/out=bottom; 180°: in=right/out=left;
270°: in=bottom/out=top). -/
def specEdgeTable : Orientation → Side → Edge
  | .deg0, .inSide => .left
  | .deg0, .outSide => .right
  | .deg90, .inSide => .top
  | .deg90, .outSide => .bottom
  | .deg180, .inSide => .right
  | .deg180, .outSide => .left
  | .deg270, .inSide => .bottom
  | .deg270, .outSide => .top

/-- Modelled from the spec (§4.2): the unit outward direction of each physical
edge, pointing away from the node's interior (e.g. `(-1,0)` for the left
edge). -/
def specOutwardDir : Edge → ℚ × ℚ
  | .left => (-1, 0)
  | .right => (1, 0)
  | .top => (0, -1)
  | .bottom => (0, 1)

/-- Modelled from the spec (§4.2): the boundary point
`edge-coordinate + footprint-extent × f` along the given edge of the node's
footprint, whose width/height swap between `length` and
`max(thickness, minNodeThickness)` with orientation. -/
def specEdgePoint (node : ComputedNode) (edge : Edge) (f : ℚ)
    (options : SankeyOptions) : ℚ × ℚ :=
  let length := node.length.getD options.nodeLength
  let nodeThickness := max node.thickness options.minNodeThickness
  let width := if node.orientation.isHorizontal then length else nodeThickness
  let height := if node.orientation.isHorizontal then nodeThickness else length
  match edge with
  | .left => (node.x - width / 2, (node.y - height / 2) + height * f)
  | .right => (node.x + width / 2, (node.y - height / 2) + height * f)
  | .top => ((node.x - width / 2) + width * f, node.y - height / 2)
  | .bottom => ((node.x - width / 2) + width * f, node.y + height / 2)

/-- C5: `getAttachmentPoint` realises the spec's attachment geometry — the
physical edge comes from the fixed orientation/side table, the boundary point
is `edge-coordinate + footprint-extent × f` along that edge, the direction is
that edge's unit outward vector; in particular, for a node with orientation 0°
the out-side point at offset 1/2 is the midpoint of its right edge. -/
theorem getAttachmentPoint_spec (node : ComputedNode) (side : Side) (f : ℚ)
    (linkThickness : ℚ) (options : SankeyOptions) (hf0 : 0 ≤ f) (hf1 : f ≤ 1) :
    (let p := getAttachmentPoint node side f linkThickness options
     let edge := specEdgeTable node.orientation side
     (p.x, p.y) = specEdgePoint node edge f options ∧
     (p.dx, p.dy) = specOutwardDir edge ∧
     p.thickness = linkThickness) ∧
    (node.orientation = .deg0 →
      getAttachmentPoint node .outSide (1/2) linkThickness options =
        { x := node.x + node.length.getD options.nodeLength / 2, y := node.y,
          dx := 1, dy := 0, thickness := linkThickness }) := by
  constructor
  · cases horient : node.orientation <;> cases side <;>
      simp [getAttachmentPoint, specEdgeTable, specEdgePoint, specOutwardDir, horient]
  · intro horient
    simp only [getAttachmentPoint, horient, Orientation.isHorizontal]
    refine congrArg₂ (fun a b => AttachmentPoint.mk a b 1 0 linkThickness) rfl (by ring)

/-- Demo computed node at the origin with orientation 0°. -/
def demoComputedA : ComputedNode :=
  { toNode := nodeA, thickness := 10, incomingValue := 0, outgoingValue := 10 }

/-- Witness for C5: applied to the demo node on the out side at offset 1/2. -/
theorem getAttachmentPoint_spec_witness :
    (let p := getAttachmentPoint demoComputedA .outSide (1/2) 10 defaultOptions
     let edge := specEdgeTable demoComputedA.orientation .outSide
     (p.x, p.y) = specEdgePoint demoComputedA edge (1/2) defaultOptions ∧
     (p.dx, p.dy) = specOutwardDir edge ∧
     p.thickness = 10) ∧
    (demoComputedA.orientation = .deg0 →
      getAttachmentPoint demoComputedA .outSide (1/2) 10 defaultOptions =
        { x := demoComputedA.x + demoComputedA.length.getD defaultOptions.nodeLength / 2,
          y := demoComputedA.y, dx := 1, dy := 0, thickness := 10 }) :=
  getAttachmentPoint_spec demoComputedA .outSide (1/2) 10 defaultOptions
    (by norm_num) (by norm_num)

/-- The per-link record stored by `calculateLinkOffsets`
(`{ offset: number; thickness: number }`). -/
structure OffsetEntry where
  offset : ℚ
  thickness : ℚ
deriving DecidableEq, Repr

/-- The `relevantLinks` selection of `calculateLinkOffsets`
(`PathGenerator.ts` lines 342–344). -/
def relevantLinksFor (links : List Link) (nodeId : String) : Side → List Link
  | .outSide => links.filter fun l => l.source == nodeId
  | .inSide => links.filter fun l => l.target == nodeId

/-- The accumulation loop of `calculateLinkOffsets` (`PathGenerator.ts` lines
350–357), carrying the running `cumulative` proportion. -/
def stackOffsets (totalValue valueScale : ℚ) : List Link → ℚ → List (String × OffsetEntry)
  | [], _ => []
  | link :: rest, cumulative =>
    let proportion := link.value / totalValue
    (link.id,
      { offset := cumulative + proportion / 2, thickness := link.value * valueScale }) ::
      stackOffsets totalValue valueScale rest (cumulative + proportion)

/-- `calculateLinkOffsets` from `src/render/PathGenerator.ts` (lines 333–360).
The JS `Map` built by successive `offsets.set` calls is modelled as the list of
insertions in order.  Note the source iterates `relevantLinks` in plain array
order and never consults `sourceOrder`/`targetOrder`. -/
def calculateLinkOffsets (links : List Link) (nodeId : String) (side : Side)
    (totalValue : ℚ) (options : SankeyOptions) : List (String × OffsetEntry) :=
  if totalValue = 0 then []
  else stackOffsets totalValue options.valueScale (relevantLinksFor links nodeId side) 0

/-- The offset loop emits one entry per relevant link. -/
theorem stackOffsets_length (totalValue valueScale : ℚ) :
    ∀ (rel : List Link) (c : ℚ),
      (stackOffsets totalValue valueScale rel c).length = rel.length := by
  intro rel
  induction rel with
  | nil => intro c; rfl
  | cons l rest ih => intro c; simp [stackOffsets, ih]

/-- Closed form of the offset loop: the i-th emitted entry carries the prefix
sum of proportions plus half its own proportion. -/
theorem stackOffsets_get (totalValue valueScale : ℚ) :
    ∀ (rel : List Link) (c : ℚ) (i : ℕ) (hi : i < rel.length),
      (stackOffsets totalValue valueScale rel c).get? i =
        some ((rel.get ⟨i, hi⟩).id,
          { offset := c + ((rel.take i).map (fun l => l.value / totalValue)).sum +
              (rel.get ⟨i, hi⟩).value / totalValue / 2,
            thickness := (rel.get ⟨i, hi⟩).value * valueScale }) := by
  intro rel
  induction rel with
  | nil => intro c i hi; simp at hi
  | cons l rest ih =>
    intro c i hi
    cases i with
    | zero =>
      simp only [stackOffsets, List.get?_cons_zero, List.get, List.take_zero,
        List.map_nil, List.sum_nil, Option.some.injEq, Prod.mk.injEq,
        OffsetEntry.mk.injEq]
      norm_num
    | succ n =>
      have hn : n < rest.length := by simpa using hi
      simp only [stackOffsets, List.get?_cons_succ]
      rw [ih (c + l.value / totalValue) n hn]
      simp only [List.get_cons_succ, List.take_succ_cons, List.map_cons,
        List.sum_cons, Option.some.injEq, Prod.mk.injEq, OffsetEntry.mk.injEq]
      exact ⟨trivial, by ring, trivial⟩

/-- Dividing every element of a list by a constant divides its sum. -/
theorem list_sum_div (l : List ℚ) (d : ℚ) :
    (l.map (fun v => v / d)).sum = l.sum / d := by
  induction l with
  | nil => simp
  | cons a rest ih => simp [ih, add_div]

/-- Prefix sums of a list of nonnegative rationals are monotone. -/
theorem take_sum_le (l : List ℚ) (h : ∀ v ∈ l, 0 ≤ v) :
    ∀ {a b : ℕ}, a ≤ b → (l.take a).sum ≤ (l.take b).sum := by
  intro a b hab
  induction b, hab using Nat.le_induction with
  | base => exact le_rfl
  | succ n hn ih =>
    refine le_trans ih ?_
    rw [List.take_succ]
    rw [List.sum_append]
    have hrest : 0 ≤ (l[n]?.toList).sum := by
      cases hg : l[n]? with
      | none => simp
      | some v =>
        have hv : v ∈ l := by
          have := List.getElem?_mem hg
          exact this
        simpa [hg] using h v hv
    linarith

/-- C3: for a side with total value equal to the side's value sum and positive,
`calculateLinkOffsets` gives the i-th processed link the offset
`cumulative + (value/T)/2` (with `cumulative` the prefix sum of proportions)
and thickness `value × valueScale`; the proportional spans tile the edge —
they sum to 1 and the span of an earlier link ends before the span of a later
link begins; with total value 0 no offsets are produced. -/
theorem calculateLinkOffsets_tiling (links : List Link) (nodeId : String) (side : Side)
    (totalValue : ℚ) (options : SankeyOptions)
    (hT : totalValue = ((relevantLinksFor links nodeId side).map Link.value).sum)
    (hpos : 0 < totalValue)
    (hnn : ∀ l ∈ relevantLinksFor links nodeId side, 0 ≤ l.value) :
    calculateLinkOffsets links nodeId side 0 options = [] ∧
    (calculateLinkOffsets links nodeId side totalValue options).length =
      (relevantLinksFor links nodeId side).length ∧
    (∀ (i : ℕ) (hi : i < (relevantLinksFor links nodeId side).length),
      (calculateLinkOffsets links nodeId side totalValue options).get? i =
        some (((relevantLinksFor links nodeId side).get ⟨i, hi⟩).id,
          { offset := (((relevantLinksFor links nodeId side).take i).map
                (fun l => l.value / totalValue)).sum +
              ((relevantLinksFor links nodeId side).get ⟨i, hi⟩).value / totalValue / 2,
            thickness := ((relevantLinksFor links nodeId side).get ⟨i, hi⟩).value *
              options.valueScale })) ∧
    ((relevantLinksFor links nodeId side).map (fun l => l.value / totalValue)).sum = 1 ∧
    (∀ (i j : ℕ) (hi : i < (relevantLinksFor links nodeId side).length)
        (hj : j < (relevantLinksFor links nodeId side).length), i < j →
      (((relevantLinksFor links nodeId side).take i).map
            (fun l => l.value / totalValue)).sum +
          ((relevantLinksFor links nodeId side).get ⟨i, hi⟩).value / totalValue ≤
        (((relevantLinksFor links nodeId side).take j).map
            (fun l => l.value / totalValue)).sum) := by
  have hne : totalValue ≠ 0 := ne_of_gt hpos
  refine ⟨by simp [calculateLinkOffsets], ?_, ?_, ?_, ?_⟩
  · simp [calculateLinkOffsets, hne, stackOffsets_length]
  · intro i hi
    rw [show calculateLinkOffsets links nodeId side totalValue options =
        stackOffsets totalValue options.valueScale (relevantLinksFor links nodeId side) 0
      from by simp [calculateLinkOffsets, hne]]
    rw [stackOffsets_get totalValue options.valueScale _ 0 i hi]
    simp
  · rw [show (fun l => l.value / totalValue) = ((fun v => v / totalValue) ∘ Link.value)
      from rfl]
    rw [← List.map_map, list_sum_div, ← hT, div_self hne]
  · intro i j hi hj hij
    set rel := relevantLinksFor links nodeId side with hrel
    set vals := rel.map (fun l => l.value / totalValue) with hvals
    have hleni : i < vals.length := by rw [hvals, List.length_map]; exact hi
    have hmap : ∀ (k : ℕ),
        ((rel.take k).map (fun l => l.value / totalValue)).sum = (vals.take k).sum := by
      intro k; rw [hvals, List.map_take]
    have hnnv : ∀ v ∈ vals, 0 ≤ v := by
      intro v hv
      rw [hvals] at hv
      obtain ⟨l, hl, hlv⟩ := List.exists_of_mem_map hv
      exact hlv ▸ div_nonneg (hnn l hl) (le_of_lt hpos)
    have hval_get : (rel.get ⟨i, hi⟩).value / totalValue = vals.get ⟨i, hleni⟩ := by
      simp [hvals]
    rw [hmap i, hmap j, hval_get]
    have hsucc : (vals.take (i + 1)).sum = (vals.take i).sum + vals.get ⟨i, hleni⟩ := by
      rw [List.take_succ, List.sum_append, List.getElem?_eq_getElem hleni]
      simp
    rw [← hsucc]
    exact take_sum_le vals hnnv (by omega)

/-- Witness for C3: the two-link demo side with values 6 and 4 and total 10. -/
theorem calculateLinkOffsets_tiling_witness :
    ((relevantLinksFor
        [{ id := "l1", source := "n", target := "b", value := 6,
           sourceOrder := none, targetOrder := none },
         { id := "l2", source := "n", target := "c", value := 4,
           sourceOrder := none, targetOrder := none }] "n" .outSide).map
      (fun l => l.value / (10 : ℚ))).sum = 1 :=
  (calculateLinkOffsets_tiling
    [{ id := "l1", source := "n", target := "b", value := 6,
       sourceOrder := none, targetOrder := none },
     { id := "l2", source := "n", target := "c", value := 4,
       sourceOrder := none, targetOrder := none }] "n" .outSide 10 defaultOptions
    (by norm_num [relevantLinksFor, List.filter, show ("n" == "n") = true from rfl])
    (by norm_num)
    (by
      intro l hl
      fin_cases hl <;> norm_num)).2.2.2.1

/-- Demo link of value 6 out of node `n`, with no explicit order key. -/
def linkSix : Link :=
  { id := "l1", source := "n", target := "b", value := 6,
    sourceOrder := none, targetOrder := none }

/-- Demo link of value 4 out of node `n`, with no explicit order key. -/
def linkFour : Link :=
  { id := "l2", source := "n", target := "c", value := 4,
    sourceOrder := none, targetOrder := none }

/-- Counterexample for C4 as stated: in the 6-and-4 scenario (`T = 10`) the
second link receives fractional offset `0.6 + (0.4)/2 = 0.8`, not `0.9`. -/
theorem scenarioB_second_offset_counterexample :
    ((calculateLinkOffsets [linkSix, linkFour] "n" .outSide 10 defaultOptions).map
      (fun e => e.2.offset)) = [3/10, 4/5] ∧ ((4 : ℚ)/5 ≠ 9/10) := by
  constructor
  · norm_num [calculateLinkOffsets, relevantLinksFor, stackOffsets, linkSix, linkFour,
      defaultOptions, List.filter, show ("n" == "n") = true from rfl]
  · norm_num

/-- C4 (amended): for a node `n` with two outgoing links of values 6 and 4 and
no explicit order keys, `calculateLinkOffsets` assigns fractional offset
`0.3` to the first link and `0.8` to the second. -/
theorem scenarioB_offsets :
    (calculateLinkOffsets [linkSix, linkFour] "n" .outSide 10 defaultOptions).map
      (fun e => (e.1, e.2.offset)) = [("l1", 3/10), ("l2", 4/5)] := by
  norm_num [calculateLinkOffsets, relevantLinksFor, stackOffsets, linkSix, linkFour,
    defaultOptions, List.filter, show ("n" == "n") = true from rfl]

/-- Demo link of value 4 out of node `n` carrying the explicit order key 0. -/
def linkKeyed : Link :=
  { id := "k2", source := "n", target := "c", value := 4,
    sourceOrder := some 0, targetOrder := none }

/-- C2 evaluated on its failing input: `calculateLinkOffsets` processes the
side's links in plain array order — the keyed link `k2` (sourceOrder 0) is
given the second slot after the unkeyed `l1`, whereas ordering by the explicit
order key would put every keyed link first. -/
theorem calculateLinkOffsets_ignores_order_keys :
    (calculateLinkOffsets [linkSix, linkKeyed] "n" .outSide 10 defaultOptions).map
        Prod.fst = ["l1", "k2"] ∧
    linkSix.sourceOrder = none ∧ linkKeyed.sourceOrder = some 0 := by
  refine ⟨?_, rfl, rfl⟩
  norm_num [calculateLinkOffsets, relevantLinksFor, stackOffsets, linkSix, linkKeyed,
    defaultOptions, List.filter, show ("n" == "n") = true from rfl]

/-- JS record assignment `m[k] = v`: replaces the value at an existing key in
place, otherwise appends a fresh binding. -/
def recordSet {α : Type} (m : List (String × α)) (k : String) (v : α) : List (String × α) :=
  if m.any (fun p => p.1 == k) then m.map (fun p => if p.1 == k then (k, v) else p)
  else m ++ [(k, v)]

/-- JS record lookup `m[k]`. -/
def recordGet {α : Type} (m : List (String × α)) (k : String) : Option α :=
  (m.find? (fun p => p.1 == k)).map Prod.snd

/-- Per-node entry of the serializable `Layout` (`types.ts`). -/
structure NodeLayout where
  x : ℚ
  y : ℚ
  orientation : Orientation
  length : Option ℚ
deriving DecidableEq, Repr

/-- Per-link entry of `Layout.linkOrders` (`types.ts`). -/
structure LinkOrderEntry where
  sourceOrder : Option ℚ
  targetOrder : Option ℚ
deriving DecidableEq, Repr

/-- The serializable `Layout` of `types.ts` (0.2.0 shape, with the optional
`linkOrders` record). -/
structure Layout where
  nodes : List (String × NodeLayout)
  linkOrders : Option (List (String × LinkOrderEntry))
deriving DecidableEq, Repr

/-- The node entry written by `extractLayout`. -/
def nodeLayoutOf (node : Node) : NodeLayout :=
  { x := node.x, y := node.y, orientation := node.orientation, length := node.length }

/-- `extractLayout` from `src/core/Layout.ts` (0.2.0 version, the second
argument optional): stores every node's placement, and the order keys of every
link that has one, setting `linkOrders` only when at least one link does. -/
def extractLayout (nodes : List Node) (links : Option (List Link)) : Layout :=
  let nodeRecord := nodes.foldl (fun acc node => recordSet acc node.id (nodeLayoutOf node)) []
  match links with
  | none => { nodes := nodeRecord, linkOrders := none }
  | some ls =>
    let keyed := ls.filter fun l => l.sourceOrder.isSome || l.targetOrder.isSome
    let orderRecord := keyed.foldl
      (fun acc l =>
        recordSet acc l.id { sourceOrder := l.sourceOrder, targetOrder := l.targetOrder }) []
    if keyed.isEmpty then { nodes := nodeRecord, linkOrders := none }
    else { nodes := nodeRecord, linkOrders := some orderRecord }

/-- `applyLayout` from `src/core/Layout.ts`: nodes found in the layout take its
placement (`length` falling back to the node's own via `??`); nodes absent
from the layout are kept as they are. -/
def applyLayout (nodes : List Node) (layout : Layout) : List Node :=
  nodes.map fun node =>
    match recordGet layout.nodes node.id with
    | some saved =>
      { node with
        x := saved.x, y := saved.y, orientation := saved.orientation,
        length := match saved.length with | some v => some v | none => node.length }
    | none => node

/-- `applyLinkOrders` from `src/core/Layout.ts`: a no-op without `linkOrders`;
otherwise links found in the record take its order keys (each falling back to
the link's own via `??`). -/
def applyLinkOrders (links : List Link) (layout : Layout) : List Link :=
  match layout.linkOrders with
  | none => links
  | some orders => links.map fun link =>
    match recordGet orders link.id with
    | some saved =>
      { link with
        sourceOrder := match saved.sourceOrder with | some v => some v | none => link.sourceOrder,
        targetOrder := match saved.targetOrder with | some v => some v | none => link.targetOrder }
    | none => link

/-- Folding `recordSet` over items with pairwise-distinct fresh keys just
appends the bindings in order. -/
theorem foldl_recordSet_eq_map {α β : Type} (key : β → String) (val : β → α) :
    ∀ (items : List β) (acc : List (String × α)),
      (items.map key).Nodup →
      (∀ b ∈ items, ∀ p ∈ acc, p.1 ≠ key b) →
      items.foldl (fun acc b => recordSet acc (key b) (val b)) acc =
        acc ++ items.map (fun b => (key b, val b)) := by
  intro items
  induction items with
  | nil => intro acc _ _; simp
  | cons b rest ih =>
    intro acc hnodup hfresh
    simp only [List.map_cons, List.nodup_cons] at hnodup
    have hnotin : (acc.any (fun p => p.1 == key b)) = false := by
      rw [List.any_eq_false]
      intro p hp
      simp only [beq_iff_eq]
      exact hfresh b (List.mem_cons_self b rest) p hp
    simp only [List.foldl_cons]
    rw [show recordSet acc (key b) (val b) = acc ++ [(key b, val b)] from by
      simp [recordSet, hnotin]]
    rw [ih (acc ++ [(key b, val b)]) hnodup.2 ?_]
    · simp
    · intro c hc p hp
      rcases List.mem_append.mp hp with h | h
      · exact hfresh c (List.mem_cons_of_mem b hc) p h
      · have hpb : p = (key b, val b) := by simpa using h
        subst hpb
        intro hkeq
        have hbc : key b = key c := hkeq
        exact hnodup.1 (by rw [hbc]; exact List.mem_map_of_mem key hc)

/-- Lookup in an association list built from items with pairwise-distinct keys
finds the entry of any member. -/
theorem recordGet_map_of_nodup {α β : Type} (key : β → String) (val : β → α) :
    ∀ (items : List β), (items.map key).Nodup →
      ∀ b ∈ items, recordGet (items.map fun c => (key c, val c)) (key b) = some (val b) := by
  intro items
  induction items with
  | nil => intro _ b hb; simp at hb
  | cons c rest ih =>
    intro hnodup b hb
    simp only [List.map_cons, List.nodup_cons] at hnodup
    rcases List.mem_cons.mp hb with h | h
    · subst h
      simp [recordGet, List.find?]
    · have hne : (key c == key b) = false := by
        simp only [beq_eq_false_iff_ne, ne_eq]
        intro hkeq
        exact hnodup.1 (hkeq ▸ List.mem_map_of_mem key h)
      have := ih hnodup.2 b h
      simpa [recordGet, List.find?, hne] using this

/-- Lookup of a key that no item carries returns nothing. -/
theorem recordGet_map_of_not_mem {α β : Type} (key : β → String) (val : β → α)
    (items : List β) (k : String) (hk : ∀ b ∈ items, key b ≠ k) :
    recordGet (items.map fun c => (key c, val c)) k = none := by
  have hfind : (items.map fun c => (key c, val c)).find? (fun p => p.1 == k) = none := by
    rw [List.find?_eq_none]
    intro p hp
    obtain ⟨b, hb, hpb⟩ := List.exists_of_mem_map hp
    rw [← hpb]
    simp [hk b hb]
  simp [recordGet, hfind]

/-- Mapping a function that fixes every member of a list is the identity. -/
theorem list_map_id_of_mem {α : Type} (l : List α) (f : α → α) (h : ∀ a ∈ l, f a = a) :
    l.map f = l := by
  induction l with
  | nil => rfl
  | cons a rest ih =>
    simp only [List.map_cons]
    rw [h a (List.mem_cons_self a rest), ih fun b hb => h b (List.mem_cons_of_mem a hb)]

/-- With pairwise-distinct node ids the node record of `extractLayout` is just
the list of per-node bindings in order. -/
theorem extractLayout_nodes_eq (nodes : List Node) (links : Option (List Link))
    (hn : (nodes.map Node.id).Nodup) :
    (extractLayout nodes links).nodes = nodes.map fun n => (n.id, nodeLayoutOf n) := by
  have hfold := foldl_recordSet_eq_map Node.id nodeLayoutOf nodes [] hn (by simp)
  cases links with
  | none => simpa [extractLayout] using hfold
  | some ls =>
    simp only [extractLayout]
    split
    · simpa using hfold
    · simpa using hfold

/-- A node shifted to x = 1 sharing the id of `nodeA`. -/
def shiftedNodeA : Node :=
  { id := "a", label := none, x := 1, y := 0, orientation := .deg0, length := none }

/-- Counterexample for C7 as stated: with two nodes sharing the id "a" the
record entry of the second overwrites the first, so the round trip moves the
first node from x = 0 to x = 1. -/
theorem layout_roundtrip_counterexample :
    (applyLayout [nodeA, shiftedNodeA]
        (extractLayout [nodeA, shiftedNodeA] (some []))).map Node.x = [1, 1] ∧
    [nodeA, shiftedNodeA].map Node.x = [0, 1] := by
  constructor
  · decide
  · decide

/-- C7 (amended): for nodes with pairwise-distinct ids and links with
pairwise-distinct ids, `applyLayout(nodes, extractLayout(nodes, links))`
returns the nodes unchanged (x, y, orientation, length exactly) and
`applyLinkOrders(links, extractLayout(nodes, links))` returns the links
unchanged (sourceOrder and targetOrder exactly). -/
theorem layout_roundtrip (nodes : List Node) (links : List Link)
    (hn : (nodes.map Node.id).Nodup) (hl : (links.map Link.id).Nodup) :
    applyLayout nodes (extractLayout nodes (some links)) = nodes ∧
    applyLinkOrders links (extractLayout nodes (some links)) = links := by
  constructor
  · unfold applyLayout
    rw [extractLayout_nodes_eq nodes (some links) hn]
    apply list_map_id_of_mem
    intro node hmem
    rw [recordGet_map_of_nodup Node.id nodeLayoutOf nodes hn node hmem]
    cases node with
    | mk id label x y orientation length =>
      cases length <;> simp [nodeLayoutOf]
  · have hkeyed_nodup :
        ((links.filter fun l => l.sourceOrder.isSome || l.targetOrder.isSome).map
          Link.id).Nodup :=
      List.Nodup.sublist (List.Sublist.map Link.id (List.filter_sublist links)) hl
    by_cases hempty :
        (links.filter fun l => l.sourceOrder.isSome || l.targetOrder.isSome).isEmpty
    · have : (extractLayout nodes (some links)).linkOrders = none := by
        simp only [extractLayout, hempty]
        simp
      simp [applyLinkOrders, this]
    · have hfold := foldl_recordSet_eq_map Link.id
        (fun l => LinkOrderEntry.mk l.sourceOrder l.targetOrder)
        (links.filter fun l => l.sourceOrder.isSome || l.targetOrder.isSome) []
        hkeyed_nodup (by simp)
      have horders : (extractLayout nodes (some links)).linkOrders =
          some ((links.filter fun l => l.sourceOrder.isSome || l.targetOrder.isSome).map
            fun l => (l.id, LinkOrderEntry.mk l.sourceOrder l.targetOrder)) := by
        simp only [extractLayout, hempty]
        simpa using hfold
      rw [applyLinkOrders, horders]
      apply list_map_id_of_mem
      intro link hmem
      by_cases hkey : (link.sourceOrder.isSome || link.targetOrder.isSome : Bool)
      · have hmemf : link ∈ links.filter fun l => l.sourceOrder.isSome || l.targetOrder.isSome :=
          List.mem_filter.mpr ⟨hmem, hkey⟩
        rw [recordGet_map_of_nodup Link.id
          (fun l => LinkOrderEntry.mk l.sourceOrder l.targetOrder) _ hkeyed_nodup link hmemf]
        cases link with
        | mk id source target value sourceOrder targetOrder =>
          cases sourceOrder <;> cases targetOrder <;> simp
      · rw [recordGet_map_of_not_mem Link.id
          (fun l => LinkOrderEntry.mk l.sourceOrder l.targetOrder) _ link.id ?_]
        intro b hb
        have hbl : b ∈ links := (List.mem_filter.mp hb).1
        have hbkey := (List.mem_filter.mp hb).2
        intro hid
        have heq : b = link := List.inj_on_of_nodup_map hl hbl hmem hid
        rw [heq] at hbkey
        exact hkey hbkey

/-- A link carrying an explicit source-order key, for the round-trip witness. -/
def linkOrdered : Link :=
  { id := "ord", source := "a", target := "b", value := 3,
    sourceOrder := some 1, targetOrder := none }

/-- Witness for C7 (amended): the demo nodes and an order-keyed link
round-trip exactly. -/
theorem layout_roundtrip_witness :
    applyLayout [nodeA, nodeB] (extractLayout [nodeA, nodeB] (some [linkAB, linkOrdered]))
      = [nodeA, nodeB] ∧
    applyLinkOrders [linkAB, linkOrdered]
        (extractLayout [nodeA, nodeB] (some [linkAB, linkOrdered]))
      = [linkAB, linkOrdered] :=
  layout_roundtrip [nodeA, nodeB] [linkAB, linkOrdered] (by decide) (by decide)

/-- Which end handle of a node is being dragged, the `'start' | 'end'` union
of `ResizeHandler.ts`. -/
inductive HandleSide where
  | atStart
  | atEnd
deriving DecidableEq, Repr

/-- The delta computation of `ResizeHandler.onMouseMove` (dual-handle version,
lines 159–178): pointer movement is read on the x axis for horizontal
orientations and on the y axis otherwise, and negated when the start handle is
held. -/
def resizeDelta (orientation : Orientation) (side : HandleSide)
    (startPos currentPos : ℚ × ℚ) : ℚ :=
  if orientation.isHorizontal then
    let rawDelta := currentPos.1 - startPos.1
    match side with
    | .atEnd => rawDelta
    | .atStart => -rawDelta
  else
    let rawDelta := currentPos.2 - startPos.2
    match side with
    | .atEnd => rawDelta
    | .atStart => -rawDelta

/-- The length update of `ResizeHandler.onMouseMove` (line 182):
`Math.max(minNodeLength, startLength + delta * 2)`. -/
def resizeNewLength (options : SankeyOptions) (orientation : Orientation) (side : HandleSide)
    (startPos currentPos : ℚ × ℚ) (startLength : ℚ) : ℚ :=
  max options.minNodeLength
    (startLength + resizeDelta orientation side startPos currentPos * 2)

/-- C9: every resize movement yields
`max(minNodeLength, startLength + 2·delta)` with `delta` the pointer movement
projected on the node's length axis and sign-flipped for the start handle, and
the result never drops below `minNodeLength`. -/
theorem resize_spec (options : SankeyOptions) (orientation : Orientation) (side : HandleSide)
    (startPos currentPos : ℚ × ℚ) (startLength : ℚ) :
    resizeNewLength options orientation side startPos currentPos startLength =
      max options.minNodeLength (startLength +
        2 * ((match side with | .atStart => (-1 : ℚ) | .atEnd => 1) *
          (match orientation with
           | .deg0 => currentPos.1 - startPos.1
           | .deg180 => currentPos.1 - startPos.1
           | .deg90 => currentPos.2 - startPos.2
           | .deg270 => currentPos.2 - startPos.2))) ∧
    options.minNodeLength ≤
      resizeNewLength options orientation side startPos currentPos startLength := by
  constructor
  · cases side <;> cases orientation <;>
      · simp only [resizeNewLength, resizeDelta, Orientation.isHorizontal, if_true,
          Bool.false_eq_true, if_false]
        congr 1
        ring
  · exact le_max_left _ _

/-- An abstract effect of the animation engine, named after the statements of
`Animator.animateTo` in `part_008`. -/
inductive AnimAction where
  | cancelExisting
  | applyFinalState
  | resolveImmediately
  | captureStartState
  | buildInterps
  | emitStartEvent
  | scheduleFrame
deriving DecidableEq, Repr

/-- `Animator.cancel` (`part_008` lines 40–45): whatever frame handle was
pending, afterwards none is. -/
def cancelAnimation : Option ℕ → Option ℕ := fun _ => none

/-- The effect sequence of `Animator.animateTo` (`part_008` lines 92–145):
`this.cancel()` runs first; when `transitionDuration ≤ 0` the target state is
applied and the promise resolved with nothing scheduled; otherwise the start
state is captured, interpolators built, the start event emitted and the first
frame scheduled. -/
def animateToTrace (duration : ℚ) : List AnimAction :=
  if duration ≤ 0 then
    [.cancelExisting, .applyFinalState, .resolveImmediately]
  else
    [.cancelExisting, .captureStartState, .buildInterps, .emitStartEvent, .scheduleFrame]

/-- The per-frame raw progress of the `tick` loop:
`Math.min(elapsed / duration, 1)`. -/
def rawProgress (elapsed duration : ℚ) : ℚ := min (elapsed / duration) 1

/-- The frame loop's continuation test: another frame is requested via
`requestAnimationFrame` exactly when `rawT < 1`. -/
def tickSchedulesNext (elapsed duration : ℚ) : Bool :=
  decide (rawProgress elapsed duration < 1)

/-- C8: `animateTo` cancels any in-flight animation first; with duration ≤ 0 it
applies the final state and resolves with no frame ever scheduled; with
duration > 0 and nonnegative elapsed time the raw progress fed to the easing
lies in [0, 1], and a further frame is scheduled exactly while the raw
progress is below 1. -/
theorem animateTo_spec (duration elapsed : ℚ) (hd : 0 < duration) (he : 0 ≤ elapsed) :
    (animateToTrace duration).head? = some .cancelExisting ∧
    (∀ d : ℚ, d ≤ 0 →
      animateToTrace d = [.cancelExisting, .applyFinalState, .resolveImmediately] ∧
      AnimAction.scheduleFrame ∉ animateToTrace d) ∧
    (0 ≤ rawProgress elapsed duration ∧ rawProgress elapsed duration ≤ 1) ∧
    (tickSchedulesNext elapsed duration = true ↔ rawProgress elapsed duration < 1) ∧
    (∀ animationId, cancelAnimation animationId = none) := by
  refine ⟨?_, ?_, ⟨?_, ?_⟩, ?_, fun _ => rfl⟩
  · by_cases h : duration ≤ 0 <;> simp [animateToTrace, h]
  · intro d hdle
    constructor
    · simp [animateToTrace, hdle]
    · simp [animateToTrace, hdle]
  · exact le_min (div_nonneg he (le_of_lt hd)) zero_le_one
  · exact min_le_right _ _
  · simp [tickSchedulesNext]

/-- Witness for C8: duration 2, elapsed 1. -/
theorem animateTo_spec_witness :
    (animateToTrace 2).head? = some .cancelExisting ∧
    (∀ d : ℚ, d ≤ 0 →
      animateToTrace d = [.cancelExisting, .applyFinalState, .resolveImmediately] ∧
      AnimAction.scheduleFrame ∉ animateToTrace d) ∧
    (0 ≤ rawProgress 1 2 ∧ rawProgress 1 2 ≤ 1) ∧
    (tickSchedulesNext 1 2 = true ↔ rawProgress 1 2 < 1) ∧
    (∀ animationId, cancelAnimation animationId = none) :=
  animateTo_spec 2 1 (by norm_num) (by norm_num)

/-- JS `Map` lookup for the node map `new Map(nodes.map(n => [n.id, n]))`:
with duplicate ids the last binding wins. -/
def nodeMapGet (nodes : List ComputedNode) (id : String) : Option ComputedNode :=
  nodes.foldl (fun acc n => if n.id == id then some n else acc) none

/-- JS `Map` lookup for an offsets map built by successive `set` calls: the
last binding wins. -/
def offsetsGet (offsets : List (String × OffsetEntry)) (k : String) : Option OffsetEntry :=
  offsets.foldl (fun acc p => if p.1 == k then some p.2 else acc) none

/-- The per-link geometric data computed by `computeLinkPaths`
(`PathGenerator.ts` lines 381–397) before the path string is serialised.  The
serialisation itself (`generateLinkPath`) involves the irrational euclidean
distance `Math.sqrt(...)` and is outside every claim; the embedding stops at
the resolved offsets and attachment points that feed it. -/
structure LinkGeometry where
  linkId : String
  sourceOffset : ℚ
  targetOffset : ℚ
  sourcePoint : AttachmentPoint
  targetPoint : AttachmentPoint
deriving DecidableEq, Repr

/-- `Array.prototype.map` over a callback that can `throw`: the first throwing
element aborts the whole map. -/
def mapExcept {α β : Type} (f : α → Except String β) : List α → Except String (List β)
  | [] => .ok []
  | a :: rest =>
    match f a with
    | .error e => .error e
    | .ok b =>
      match mapExcept f rest with
      | .error e => .error e
      | .ok bs => .ok (b :: bs)

/-- The body of the `links.map(link => ...)` callback of `computeLinkPaths`:
resolve both endpoint nodes (throwing if either is missing), look the link up
in the per-node offset maps, fall back to offset `0.5` when the allocator
produced no entry, and build both attachment points. -/
def linkGeometryOf (nodes : List ComputedNode) (links : List Link)
    (options : SankeyOptions) (link : Link) : Except String LinkGeometry :=
  match nodeMapGet nodes link.source, nodeMapGet nodes link.target with
  | some sourceNode, some targetNode =>
    let sourceData := offsetsGet
      (calculateLinkOffsets links link.source .outSide sourceNode.outgoingValue options) link.id
    let targetData := offsetsGet
      (calculateLinkOffsets links link.target .inSide targetNode.incomingValue options) link.id
    let sourceOffset := (sourceData.map OffsetEntry.offset).getD (1/2)
    let targetOffset := (targetData.map OffsetEntry.offset).getD (1/2)
    let linkThickness := link.value * options.valueScale
    .ok { linkId := link.id, sourceOffset := sourceOffset, targetOffset := targetOffset,
          sourcePoint := getAttachmentPoint sourceNode .outSide sourceOffset linkThickness options,
          targetPoint := getAttachmentPoint targetNode .inSide targetOffset linkThickness options }
  | _, _ => .error ("Link \"" ++ link.id ++ "\" references missing node")

/-- The geometric core of `computeLinkPaths` from `src/render/PathGenerator.ts`
(lines 365–414): each link is mapped to its resolved endpoint geometry, and a
link naming a node absent from the computed-node map throws. -/
def computeLinkGeometries (nodes : List ComputedNode) (links : List Link)
    (options : SankeyOptions) : Except String (List LinkGeometry) :=
  mapExcept (linkGeometryOf nodes links options) links

/-- The per-link callback fails exactly when an endpoint node is missing. -/
theorem linkGeometryOf_error_iff (nodes : List ComputedNode) (links : List Link)
    (options : SankeyOptions) (link : Link) :
    (∃ msg, linkGeometryOf nodes links options link = .error msg) ↔
      (nodeMapGet nodes link.source = none ∨ nodeMapGet nodes link.target = none) := by
  cases hs : nodeMapGet nodes link.source <;> cases ht : nodeMapGet nodes link.target <;>
    simp [linkGeometryOf, hs, ht]

/-- A successful `mapExcept` has one output per input, produced by the
callback. -/
theorem mapExcept_ok_get {α β : Type} (f : α → Except String β) :
    ∀ (ls : List α) (res : List β), mapExcept f ls = .ok res →
      res.length = ls.length ∧
      ∀ (i : ℕ) (a : α), ls.get? i = some a → ∃ b, f a = .ok b ∧ res.get? i = some b := by
  intro ls
  induction ls with
  | nil =>
    intro res h
    cases h
    exact ⟨rfl, by intro i a ha; simp at ha⟩
  | cons a rest ih =>
    intro res h
    unfold mapExcept at h
    rcases hfa : f a with e | b <;> rw [hfa] at h
    · cases h
    · rcases hrest : mapExcept f rest with e | bs <;> rw [hrest] at h
      · cases h
      · cases h
        obtain ⟨hlen, hget⟩ := ih bs hrest
        refine ⟨by simp [hlen], ?_⟩
        intro i c hc
        cases i with
        | zero =>
          simp only [List.get?_cons_zero, Option.some.injEq] at hc
          exact ⟨b, hc ▸ hfa, rfl⟩
        | succ n =>
          simp only [List.get?_cons_succ] at hc ⊢
          exact hget n c hc

/-- A failing element makes the whole `mapExcept` fail. -/
theorem mapExcept_error_of_mem {α β : Type} (f : α → Except String β) :
    ∀ (ls : List α) (a : α), a ∈ ls → ∀ msg, f a = .error msg →
      ∃ m, mapExcept f ls = .error m := by
  intro ls
  induction ls with
  | nil => intro a ha; simp at ha
  | cons c rest ih =>
    intro a ha msg hf
    rcases List.mem_cons.mp ha with h | h
    · subst h
      exact ⟨msg, by simp [mapExcept, hf]⟩
    · rcases hfc : f c with e | b
      · exact ⟨e, by simp [mapExcept, hfc]⟩
      · obtain ⟨m, hm⟩ := ih a h msg hf
        exact ⟨m, by simp [mapExcept, hfc, hm]⟩

/-- When every element succeeds, `mapExcept` succeeds. -/
theorem mapExcept_ok_of_all {α β : Type} (f : α → Except String β) :
    ∀ (ls : List α), (∀ a ∈ ls, ∃ b, f a = .ok b) →
      ∃ res, mapExcept f ls = .ok res := by
  intro ls
  induction ls with
  | nil => intro _; exact ⟨[], rfl⟩
  | cons a rest ih =>
    intro h
    obtain ⟨b, hb⟩ := h a (List.mem_cons_self a rest)
    obtain ⟨bs, hbs⟩ := ih fun c hc => h c (List.mem_cons_of_mem a hc)
    exact ⟨b :: bs, by simp [mapExcept, hb, hbs]⟩

/-- C10: `computeLinkGeometries` throws exactly when some link's source or
target node is absent from the computed-node map; on success, a link endpoint
whose node side has zero total flow (so the offset allocator produced no entry
for it) is attached at fractional offset 1/2 — the midpoint of the node's
edge — instead of failing. -/
theorem computeLinkGeometries_spec (nodes : List ComputedNode) (links : List Link)
    (options : SankeyOptions) :
    ((∃ msg, computeLinkGeometries nodes links options = .error msg) ↔
      ∃ l ∈ links, nodeMapGet nodes l.source = none ∨ nodeMapGet nodes l.target = none) ∧
    (∀ res, computeLinkGeometries nodes links options = .ok res →
      res.length = links.length ∧
      (∀ (i : ℕ) (link : Link) (sn : ComputedNode),
        links.get? i = some link → nodeMapGet nodes link.source = some sn →
        sn.outgoingValue = 0 →
        ∃ geo, res.get? i = some geo ∧ geo.sourceOffset = 1/2 ∧
          geo.sourcePoint =
            getAttachmentPoint sn .outSide (1/2) (link.value * options.valueScale) options) ∧
      (∀ (i : ℕ) (link : Link) (tn : ComputedNode),
        links.get? i = some link → nodeMapGet nodes link.target = some tn →
        tn.incomingValue = 0 →
        ∃ geo, res.get? i = some geo ∧ geo.targetOffset = 1/2 ∧
          geo.targetPoint =
            getAttachmentPoint tn .inSide (1/2) (link.value * options.valueScale) options)) := by
  constructor
  · constructor
    · intro herr
      by_contra hnone
      push_neg at hnone
      have hall : ∀ l ∈ links, ∃ b, linkGeometryOf nodes links options l = .ok b := by
        intro l hl
        have := hnone l hl
        cases hs : nodeMapGet nodes l.source with
        | none => exact absurd (Or.inl hs) (by tauto)
        | some sn =>
          cases ht : nodeMapGet nodes l.target with
          | none => exact absurd (Or.inr ht) (by tauto)
          | some tn =>
            simp only [linkGeometryOf, hs, ht]
            exact ⟨_, rfl⟩
      obtain ⟨res, hres⟩ := mapExcept_ok_of_all _ links hall
      obtain ⟨msg, hmsg⟩ := herr
      rw [computeLinkGeometries] at hmsg
      rw [hres] at hmsg
      cases hmsg
    · rintro ⟨l, hl, hcase⟩
      obtain ⟨msg, hmsg⟩ := (linkGeometryOf_error_iff nodes links options l).mpr hcase
      exact mapExcept_error_of_mem _ links l hl msg hmsg
  · intro res h
    obtain ⟨hlen, hget⟩ := mapExcept_ok_get (linkGeometryOf nodes links options) links res h
    refine ⟨hlen, ?_, ?_⟩
    · intro i link sn hi hsn hzero
      obtain ⟨b, hfb, hres⟩ := hget i link hi
      cases ht : nodeMapGet nodes link.target with
      | none =>
        rw [linkGeometryOf] at hfb
        rw [hsn, ht] at hfb
        cases hfb
      | some tn =>
        rw [linkGeometryOf] at hfb
        rw [hsn, ht] at hfb
        dsimp only at hfb
        rw [hzero] at hfb
        rw [show calculateLinkOffsets links link.source .outSide 0 options = []
          from by simp [calculateLinkOffsets]] at hfb
        simp only [offsetsGet, List.foldl_nil, Option.map_none, Option.getD_none] at hfb
        cases hfb
        exact ⟨_, hres, rfl, rfl⟩
    · intro i link tn hi htn hzero
      obtain ⟨b, hfb, hres⟩ := hget i link hi
      cases hs : nodeMapGet nodes link.source with
      | none =>
        rw [linkGeometryOf] at hfb
        rw [hs, htn] at hfb
        cases hfb
      | some sn =>
        rw [linkGeometryOf] at hfb
        rw [hs, htn] at hfb
        dsimp only at hfb
        rw [hzero] at hfb
        rw [show calculateLinkOffsets links link.target .inSide 0 options = []
          from by simp [calculateLinkOffsets]] at hfb
        simp only [offsetsGet, List.foldl_nil, Option.map_none, Option.getD_none] at hfb
        cases hfb
        exact ⟨_, hres, rfl, rfl⟩

/-- A link of value 0, so both of its endpoint sides have zero total flow. -/
def zeroValueLink : Link :=
  { id := "z", source := "a", target := "b", value := 0,
    sourceOrder := none, targetOrder := none }

/-- Computed form of `nodeA` with no flow. -/
def demoComputedAZero : ComputedNode :=
  { toNode := nodeA, thickness := 0, incomingValue := 0, outgoingValue := 0 }

/-- Computed form of `nodeB` with no flow. -/
def demoComputedBZero : ComputedNode :=
  { toNode := nodeB, thickness := 0, incomingValue := 0, outgoingValue := 0 }

/-- The geometry list produced for the zero-value demo link. -/
def demoGeometries : List LinkGeometry :=
  [{ linkId := "z", sourceOffset := 1/2, targetOffset := 1/2,
     sourcePoint := getAttachmentPoint demoComputedAZero .outSide (1/2)
       (zeroValueLink.value * defaultOptions.valueScale) defaultOptions,
     targetPoint := getAttachmentPoint demoComputedBZero .inSide (1/2)
       (zeroValueLink.value * defaultOptions.valueScale) defaultOptions }]

/-- Witness for C10: the zero-flow demo link is attached at offset 1/2. -/
theorem computeLinkGeometries_spec_witness :
    ∃ geo, demoGeometries.get? 0 = some geo ∧ geo.sourceOffset = 1/2 ∧
      geo.sourcePoint = getAttachmentPoint demoComputedAZero .outSide (1/2)
        (zeroValueLink.value * defaultOptions.valueScale) defaultOptions :=
  ((computeLinkGeometries_spec [demoComputedAZero, demoComputedBZero] [zeroValueLink]
      defaultOptions).2 demoGeometries rfl).2.1 0 zeroValueLink demoComputedAZero
    rfl rfl rfl

end Sankey
